import Mathlib

/-!
Verification of the marvin at-command message lifecycle engine
(file `marvin/modules/atcommand/atcommand.go`) and of the factoid store
(the `factoid` module), as a shallow embedding in Lean.

Text is modelled as `List Char`.  Go indexes strings by bytes; the model
indexes by characters, and all concrete inputs used below are ASCII,
where the two coincide (the one place where the byte length itself
matters, the factoid name length check, uses an explicit UTF-8 byte
count).  A Go runtime fault (index out of range) is modelled by
`Option`, with `none` standing for the fault.
-/

namespace Marvin

/-- Text, modelled as a list of characters. -/
abbrev Str := List Char

/-- The single-quote character (spelled by code point). -/
def squote : Char := Char.ofNat 39

/-- The double-quote character (spelled by code point). -/
def dquote : Char := Char.ofNat 34

/-- The backtick character (spelled by code point). -/
def btick : Char := Char.ofNat 96

/-- Go regexp `\s` character class: `[\t\n\f\r ]`. -/
def isRgxSpace (c : Char) : Bool :=
  c = ' ' || c = '\t' || c = '\n' || c = '\x0c' || c = '\r'

/-- Go `unicode.IsSpace`, restricted to the Latin-1 range (sufficient
for the inputs considered here; wider Unicode space classes are not
modelled). -/
def isGoSpace (c : Char) : Bool :=
  c = ' ' || c = '\t' || c = '\n' || c = '\x0b' || c = '\x0c' || c = '\r' ||
  c = '\x85' || c = '\xa0'

/-- Go `strings.TrimSpace`. -/
def trimSpace (s : Str) : Str :=
  ((s.dropWhile isGoSpace).reverse.dropWhile isGoSpace).reverse

/-- Go `strings.TrimLeft(s, " ")` (atcommand.go line 790). -/
def trimLeftSp (s : Str) : Str := s.dropWhile (fun c => c = ' ')

/-- Go `strings.TrimPrefix`. -/
def trimPfx (p s : Str) : Str := if p.isPrefixOf s then s.drop p.length else s

/-- Go `strings.TrimSuffix`. -/
def trimSfx (p s : Str) : Str :=
  if p.isSuffixOf s then s.take (s.length - p.length) else s

/-- Go `strings.Split(s, " ")`: split around every single space, keeping
empty fields (`"" ↦ [""]`). -/
def splitOnSpace : Str → List Str
  | [] => [[]]
  | c :: rest =>
    let r := splitOnSpace rest
    if c = ' ' then [] :: r
    else
      match r with
      | [] => [[c]]
      | h :: t => (c :: h) :: t

/-- State of the `shellSplit` loop (atcommand.go lines 828-830):
accumulated result, the open quote character (empty string in Go,
`none` here, when outside a quoted block), and the block buffer. -/
structure ShellState where
  result : List Str
  inquote : Option Char
  block : Str
  deriving DecidableEq

/-- One iteration of the loop in `shellSplit` (atcommand.go lines
832-853). -/
def shellSplitStep (st : ShellState) (i : Str) : ShellState :=
  match st.inquote with
  | none =>
    match i with
    | q :: _ =>
      if q = squote ∨ q = dquote then
        { result := st.result, inquote := some q, block := trimPfx [q] i ++ [' '] }
      else
        { result := st.result ++ [i], inquote := none, block := st.block }
    | [] => { result := st.result ++ [i], inquote := none, block := st.block }
  | some q =>
    if [q].isSuffixOf i then
      { result := st.result ++ [st.block ++ trimSfx [q] i], inquote := none, block := [] }
    else
      { result := st.result, inquote := some q, block := st.block ++ i ++ [' '] }

/-- Go `shellSplit` (atcommand.go lines 825-856): split on single
spaces, then re-join quoted runs.  A block whose quote is never
terminated is discarded (only `result` is returned; the open `block`
buffer is dropped).  In Go the result slice is `nil` exactly when it is
empty, so `nil`-ness is modelled as emptiness. -/
def shellSplit (s : Str) : List Str :=
  ((splitOnSpace s).foldl shellSplitStep
    { result := [], inquote := none, block := [] }).result

/-- Three backticks: the code-block fence of `rgxCodeBlock`. -/
def fence : Str := btick :: btick :: btick :: []

/-- End-of-line in the `(?m)` sense: end of text or just before a
newline. -/
def eolAt (v : Str) : Bool := v.isEmpty || v.head? == some '\n'

/-- Does `v` begin with the closing delimiter of `rgxCodeBlock`
(atcommand.go line 780): a newline, three backticks, then end of
line? -/
def closesHere (v : Str) : Bool :=
  (('\n' :: fence).isPrefixOf v) && eolAt (v.drop 4)

/-- Least position at which the closing fence occurs (the un-greedy
`(?sU:(.*))` capture): returns the capture and the remainder after the
closing backticks. -/
def findClose (u : Str) : Option (Str × Str) :=
  if closesHere u then some ([], u.drop 4)
  else
    match u with
    | [] => none
    | c :: u2 => (findClose u2).map (fun p => (c :: p.1, p.2))

/-- Match attempt after an opening fence: `\n?` prefers to consume the
optional newline (leftmost-first semantics), falling back to not
consuming it. -/
def tryOpen (u : Str) : Option (Str × Str) :=
  match u with
  | '\n' :: u2 =>
    match findClose u2 with
    | some p => some p
    | none => findClose u
  | _ => findClose u

/-- All captures of `rgxCodeBlock` over the text, scanning left to
right for an opening fence at a line start, non-overlapping as in
`FindAllStringSubmatch`.  `fuel` bounds the recursion for structural
termination; every step strictly shortens the text (a successful
`tryOpen` consumes the opening fence and at least the closing one), so
with `fuel` at least the text length the `0` case is never reached. -/
def scanBlocks (fuel : Nat) (s : Str) (lineStart : Bool) : List Str :=
  match fuel with
  | 0 => []
  | fuel + 1 =>
    match s with
    | [] => []
    | c :: rest =>
      if lineStart && fence.isPrefixOf (c :: rest) then
        match tryOpen ((c :: rest).drop 3) with
        | some (cap, rem) => cap :: scanBlocks fuel rem false
        | none => scanBlocks fuel rest (c == '\n')
      else scanBlocks fuel rest (c == '\n')

/-- The `codeBlocks` of `ParseArgs`: all fenced code blocks of the raw
message (`rgxCodeBlock.FindAllStringSubmatch(raw, -1)`, keeping the
capture group of each match). -/
def findCodeBlocks (s : Str) : List Str := scanBlocks s.length s true

/-- The literal `&amp;` (the HTML-escaped `&` that Slack delivers). -/
def ampPfx : Str := "&amp;".data

/-- Match of `rgxTakeCodeBlock` (`^&amp;(\d+)$`, line 779): the token
must be exactly `&amp;` followed by one or more decimal digits; returns
the digit string. -/
def takeCodeBlockRef (s : Str) : Option Str :=
  if ampPfx.isPrefixOf s then
    let ds := s.drop 5
    if ds ≠ [] ∧ ds.all (fun c => c.isDigit) then some ds else none
  else none

/-- Decimal value of a digit string. -/
def digitsVal (ds : Str) : Nat := ds.foldl (fun a c => a * 10 + (c.toNat - 48)) 0

/-- Go `strconv.Atoi` on a digit-only string: fails exactly when the
value overflows a signed 64-bit integer. -/
def atoi (ds : Str) : Option Nat :=
  let v := digitsVal ds
  if v < 2 ^ 63 then some v else none

/-- The tokenization errors produced by `ParseArgs`, one constructor per
`errors.Errorf` site (atcommand.go lines 803, 807, 812).  The
`outOfRange` constructor records the digit string and the number of
code blocks, the data interpolated into the Go error message. -/
inductive TokenizeError where
  | notANumber (digits : Str)
  | zeroIndex
  | outOfRange (digits : Str) (count : Nat)
  deriving DecidableEq

/-- The back-reference substitution loop of `ParseArgs` (lines 794-819).
`memo` is the lazily computed `codeBlocks` slice (`nil` until first
needed); `err` is the running `retErr`, overwritten by later errors.
On an error the loop `continue`s, leaving the original (untrimmed)
token in place.  A `none` result models the Go index-out-of-range fault
at `codeBlocks[which]`: the guard on line 811 only rejects
`which > len(codeBlocks)`, so `which = len(codeBlocks)` reaches the
index expression and faults. -/
def substLoop (raw : Str) :
    List Str → Option (List Str) → Option TokenizeError →
    Option (List Str × Option TokenizeError)
  | [], _, err => some ([], err)
  | v :: rest, memo, err =>
    let str := trimSpace v
    match takeCodeBlockRef str with
    | none => (substLoop raw rest memo err).map (fun p => (str :: p.1, p.2))
    | some ds =>
      let blocks := match memo with | some b => b | none => findCodeBlocks raw
      match atoi ds with
      | none =>
        (substLoop raw rest (some blocks) (some (.notANumber ds))).map
          (fun p => (v :: p.1, p.2))
      | some which =>
        if which = 0 then
          (substLoop raw rest (some blocks) (some .zeroIndex)).map
            (fun p => (v :: p.1, p.2))
        else if which - 1 > blocks.length then
          (substLoop raw rest (some blocks) (some (.outOfRange ds blocks.length))).map
            (fun p => (v :: p.1, p.2))
        else
          match blocks[which - 1]? with
          | none => none
          | some content =>
            (substLoop raw rest (some blocks) err).map
              (fun p => (content :: p.1, p.2))

/-- The command line (lines 783-787): from `startIdx` to the first
newline, or to the end of the text. -/
def lineFrom (raw : Str) (startIdx : Nat) : Str :=
  (raw.drop startIdx).takeWhile (fun c => c ≠ '\n')

/-- Go `ParseArgs` (atcommand.go lines 782-822).  `none` models the
runtime fault described at `substLoop`. -/
def ParseArgs (raw : Str) (startIdx : Nat) :
    Option (List Str × Option TokenizeError) :=
  substLoop raw (shellSplit (trimLeftSp (lineFrom raw startIdx))) none none

/-- Result of `ParseMessage` (struct at atcommand.go lines 191-196).  In
Go `argSplit` is only ever grown by `append`, so it is `nil` exactly
when it is empty; the `argSplit != nil` tests are modelled as
`argSplit ≠ []`. -/
structure ParseMessageReturn where
  wave : Bool
  argSplit : List Str
  splitErr : Option TokenizeError
  lenientNoSuchCommand : Bool
  deriving DecidableEq

/-- The bot mention token `<@BOT>` (the literal of `mentionRgx1`,
line 52). -/
def mentionTok (bot : Str) : Str := '<' :: '@' :: (bot ++ ['>'])

/-- Substring test: `mentionRgx1.FindString` returns a non-empty match
iff the (non-empty) literal occurs in the text. -/
def occursIn (needle : Str) : Str → Bool
  | [] => needle.isEmpty
  | c :: t => needle.isPrefixOf (c :: t) || occursIn needle t

/-- Count of leading regex-whitespace characters. -/
def wsCount (s : Str) : Nat := (s.takeWhile isRgxSpace).length

/-- Attempt to match `\s*(<@BOT>)\s+()` from a line-start position
(`mentionRgx2`, line 53); returns the number of characters consumed,
which is the end index of the empty capture group — `\s*` and `\s+`
are greedy and nothing can backtrack them, since the mention literal
starts with a non-whitespace character and nothing follows the final
group. -/
def mentionTail (bot : Str) (s : Str) : Option Nat :=
  let j := wsCount s
  let m := mentionTok bot
  if m.isPrefixOf (s.drop j) then
    let k := wsCount (s.drop (j + m.length))
    if k = 0 then none else some (j + m.length + k)
  else none

/-- Leftmost match of `mentionRgx2`: scan candidate line starts from the
left and return the absolute index just after the whitespace following
the mention (`matches[2*2+1]` in the Go code). -/
def findMention2 (bot : Str) : Str → Nat → Bool → Option Nat
  | s, i, lineStart =>
    match (if lineStart then mentionTail bot s else none) with
    | some k => some (i + k)
    | none =>
      match s with
      | [] => none
      | c :: rest => findMention2 bot rest (i + 1) (c == '\n')

/-- Go `ParseMessage` (atcommand.go lines 198-228), as a function of the
bot user id, the channel id of the message, and the message text.
`none` models a fault propagated from `ParseArgs`.  The `wave` flag is
set on a bare-mention match of `mentionRgx1`, and also whenever the
argument split comes out empty (line 224). -/
def ParseMessage (bot channel text : Str) : Option ParseMessageReturn :=
  match findMention2 bot text 0 true with
  | none =>
    if channel.head? = some 'D' then
      match ParseArgs text 0 with
      | none => none
      | some (args, err) =>
        some { wave := args.isEmpty, argSplit := args, splitErr := err,
               lenientNoSuchCommand := true }
    else if occursIn (mentionTok bot) text then
      some { wave := true, argSplit := [], splitErr := none,
             lenientNoSuchCommand := false }
    else
      some { wave := false, argSplit := [], splitErr := none,
             lenientNoSuchCommand := false }
  | some g2end =>
    match ParseArgs text g2end with
    | none => none
    | some (args, err) =>
      some { wave := args.isEmpty, argSplit := args, splitErr := err,
             lenientNoSuchCommand := false }

/-! ## Command lifecycle data model -/

/-- A message identity: channel id plus message timestamp
(`slack.MessageID`). -/
structure MessageID where
  channel : Str
  ts : Str
  deriving DecidableEq

/-- Modelled from the spec: the closed result-code set of the dispatch
collaborator (`marvin.CommandResult.Code` is not among the provided
sources; the spec lists `{ok, failure, error, no-such-command,
print-usage, print-help}`). -/
inductive CmdCode where
  | ok
  | failure
  | error
  | noSuchCommand
  | printUsage
  | printHelp
  deriving DecidableEq

/-- A command source (`marvin.ActionSourceUserMessage` as consumed by
atcommand.go): the invoking or editing user, the origin channel, the
message identity and its archive link. -/
structure Source where
  userID : Str
  channelID : Str
  msgID : MessageID
  archiveLink : Str
  deriving DecidableEq

mutual

/-- Modelled from the spec: `marvin.CommandResult` (not among the
provided sources).  Fields are the ones atcommand.go reads: result
code, human text, underlying error text, destination bitmask override,
the edit-permission flag (`1` force-allow, `-1` force-forbid, `0`
default), the undo opt-in flag, and the arguments that produced it. -/
inductive CommandResult : Type where
  | mk (code : CmdCode) (message : Str) (err : Option Str) (replyType : Nat)
       (canEdit : Int) (canUndo : Bool) (args : CommandArguments) : CommandResult

/-- Modelled from the spec: `marvin.CommandArguments` (not among the
provided sources).  Fields are the ones atcommand.go writes or forwards;
`moduleData` is an opaque value, modelled as a `Nat` (`0` for Go
`nil`). -/
inductive CommandArguments : Type where
  | mk (originalArguments : List Str) (arguments : List Str) (command : Str)
       (source : Source) (isEdit : Bool) (isUndo : Bool)
       (previousResult : Option CommandResult) (moduleData : Nat) : CommandArguments

end

def CommandResult.code : CommandResult → CmdCode
  | .mk c _ _ _ _ _ _ => c

def CommandResult.message : CommandResult → Str
  | .mk _ m _ _ _ _ _ => m

def CommandResult.err : CommandResult → Option Str
  | .mk _ _ e _ _ _ _ => e

def CommandResult.replyType : CommandResult → Nat
  | .mk _ _ _ r _ _ _ => r

def CommandResult.canEdit : CommandResult → Int
  | .mk _ _ _ _ ce _ _ => ce

def CommandResult.canUndo : CommandResult → Bool
  | .mk _ _ _ _ _ cu _ => cu

def CommandResult.args : CommandResult → CommandArguments
  | .mk _ _ _ _ _ _ a => a

def CommandArguments.originalArguments : CommandArguments → List Str
  | .mk oa _ _ _ _ _ _ _ => oa

def CommandArguments.arguments : CommandArguments → List Str
  | .mk _ a _ _ _ _ _ _ => a

def CommandArguments.isEdit : CommandArguments → Bool
  | .mk _ _ _ _ ie _ _ _ => ie

def CommandArguments.previousResult : CommandArguments → Option CommandResult
  | .mk _ _ _ _ _ _ pr _ => pr

def CommandArguments.moduleData : CommandArguments → Nat
  | .mk _ _ _ _ _ _ _ md => md

/-- An emoji-reaction side effect tracked in an entry
(`ReplyActionEmoji`, lines 89-92). -/
structure ReplyActionEmoji where
  messageID : MessageID
  emoji : Str
  deriving DecidableEq

/-- A sent-reply side effect tracked in an entry
(`ReplyActionSentMessage`, lines 103-106). -/
structure ReplyActionSentMessage where
  messageID : MessageID
  text : Str
  deriving DecidableEq

/-- An inbound message or edit event, reduced to the fields atcommand.go
reads: the message identity (for an edit this is the identity of the
original message), the acting user, and the text. -/
structure MsgEvent where
  msgID : MessageID
  userID : Str
  text : Str
  deriving DecidableEq

/-- A tracker entry (`FinishedCommandInfo`, lines 121-139).  The
creation timestamp and the entry lock are outside the model (time and
concurrency); `OriginalMsg` is reduced to its message identity. -/
structure FinishedCommandInfo where
  originalMsgID : MessageID
  latestEdit : Option MsgEvent
  parseResult : ParseMessageReturn
  foundCommand : Bool
  commandArgs : Option CommandArguments
  commandResult : CommandResult
  wasUndone : Bool
  actionEmoji : List ReplyActionEmoji
  actionChanMsg : ReplyActionSentMessage
  actionPMMsg : ReplyActionSentMessage
  actionPMLogMsg : ReplyActionSentMessage
  actionLogMsg : ReplyActionSentMessage

/-- An outbound request issued to the chat platform or to the dispatch
collaborator.  `sendMessage`/`updateMessage`/`reactMessage` are the
posting API calls; `removeReaction` is the `reactions.remove` API post
of `ReplyActionEmoji.Undo`; `dispatchCmd` is a `DispatchCommand`
call. -/
inductive Effect where
  | sendMessage (channel : Str) (text : Str)
  | updateMessage (m : MessageID) (text : Str)
  | reactMessage (m : MessageID) (emoji : Str)
  | removeReaction (m : MessageID) (emoji : Str)
  | dispatchCmd (args : CommandArguments)

/-- The environment: the bot identity, the external collaborators
(dispatch target, transport, IM lookup, archive links), the module
configuration (the seven configurable emoji, lines 56-62), and the
reply-shaping constants of the `marvin` package that are not among the
provided sources (`LongReplyThreshold`, `ShortReplyThreshold`,
`LongReplyCut`, `util.PreviewString`), kept abstract.  `send` returns
the new message timestamp, or `none` for a transport error. -/
structure Env where
  bot : Str
  logChannel : Str
  getIM : Str → Str
  archive : MessageID → Str
  dispatch : CommandArguments → CommandResult
  send : Str → Str → Option Str
  emojiHi : Str
  emojiOk : Str
  emojiFail : Str
  emojiError : Str
  emojiUnkCmd : Str
  emojiUsage : Str
  emojiHelp : Str
  longReplyThreshold : Nat
  shortReplyThreshold : Nat
  longReplyCut : Nat
  preview : Str → Nat → Str

/-- Go `GetEmojiForResponse` (lines 881-900); the `default` arm
coincides with the `error` arm and is unreachable for the closed code
set. -/
def GetEmojiForResponse (env : Env) (result : CommandResult) : Str :=
  match result.code with
  | .ok => env.emojiOk
  | .failure => env.emojiFail
  | .error => env.emojiError
  | .noSuchCommand => env.emojiUnkCmd
  | .printUsage => env.emojiUsage
  | .printHelp => env.emojiHelp

/-! ## Sanitization (lines 858-879) -/

/-- The fueled worker for `replaceAll`; a match consumes `tok.length ≥
1` characters and a non-match consumes one, so with fuel at least the
text length the `0` case (which returns the text unchanged) is never
reached. -/
def replaceAllF (tok rep : Str) : Nat → Str → Str
  | 0, s => s
  | _ + 1, [] => []
  | fuel + 1, c :: s2 =>
    if tok ≠ [] ∧ tok.isPrefixOf (c :: s2) then
      rep ++ replaceAllF tok rep fuel ((c :: s2).drop tok.length)
    else c :: replaceAllF tok rep fuel s2

/-- Go `strings.Replace(s, tok, rep, -1)`: replace every non-overlapping
occurrence, scanning left to right.  (Only called with non-empty `tok`;
for `tok = []` this model is the identity.) -/
def replaceAll (tok rep : Str) (s : Str) : Str :=
  replaceAllF tok rep s.length s

/-- Go `SanitizeLoose` (lines 858-863): escape a leading slash by
prepending a dot. -/
def SanitizeLoose (msg : Str) : Str :=
  if msg.head? = some '/' then '.' :: msg else msg

def tokChannelStr : Str := "<!channel>".data
def repChannelStr : Str := "@\\channel".data
def tokEveryoneStr : Str := "<!everyone>".data
def repEveryoneStr : Str := "@\\everyone".data
def tokHereStr : Str := "<!here|@here>".data
def repHereStr : Str := "@\\here".data

/-- One guarded replacement of `SanitizeForChannel`: a
`strings.Contains` test followed by `strings.Replace` of every
occurrence (the guard is kept from the Go code even though `Replace` is
the identity on a non-containing string). -/
def sanStep (tok rep msg : Str) : Str :=
  if occursIn tok msg then replaceAll tok rep msg else msg

/-- Go `SanitizeForChannel` (lines 865-879): neutralize the three
broadcast mention tokens in order, then apply `SanitizeLoose`. -/
def SanitizeForChannel (msg : Str) : Str :=
  SanitizeLoose (sanStep tokHereStr repHereStr
    (sanStep tokEveryoneStr repEveryoneStr
      (sanStep tokChannelStr repChannelStr msg)))

/-! ## Reaction reconciliation (`ChangeEmoji`, lines 145-171) -/

/-- The match test of the inner loops of `ChangeEmoji`: some element of
`l` has the same (message identity, emoji name) pair as `v`. -/
def emojiPairMatch (v : ReplyActionEmoji) (l : List ReplyActionEmoji) : Bool :=
  l.any (fun v2 => decide (v.messageID = v2.messageID) && decide (v.emoji = v2.emoji))

/-- The requests issued by `ChangeEmoji`: a removal for every current
pair not in the new set (first loop), then an addition for every new
pair not in the current set (second loop); each is fire-and-forget in
Go, recorded here in issue order. -/
def ChangeEmojiEffects (cur new : List ReplyActionEmoji) : List Effect :=
  (cur.filter (fun v => ! emojiPairMatch v new)).map
      (fun v => Effect.removeReaction v.messageID v.emoji)
    ++ (new.filter (fun v => ! emojiPairMatch v cur)).map
      (fun v => Effect.reactMessage v.messageID v.emoji)

/-- Go `ChangeEmoji`: issue the diff, then replace the tracked set
wholesale (`fci.ActionEmoji = new`, line 170). -/
def ChangeEmoji (fci : FinishedCommandInfo) (new : List ReplyActionEmoji) :
    FinishedCommandInfo × List Effect :=
  ({ fci with actionEmoji := new }, ChangeEmojiEffects fci.actionEmoji new)

/-! ## Reply routing (`SendReplyMessages`, lines 639-777) -/

/-- Modelled from the spec: the destination bitmask constants of the
`marvin` package (not among the provided sources).  The spec gives the
destination set `{channel, PM, log}`; the bit values are chosen
distinct here, with `ReplyTypeShortProblem` as the short public notice
destination and `ReplyTypeInvalid` as the zero mask. -/
def ReplyTypeInvalid : Nat := 0

def ReplyTypeInChannel : Nat := 1

def ReplyTypePM : Nat := 2

def ReplyTypeLog : Nat := 4

def ReplyTypeDestinations : Nat := 7

def ReplyTypeShortProblem : Nat := ReplyTypeInChannel

def ReplyTypeFlagOmitUsername : Nat := 8

/-- The four send callbacks of `SendReplyMessages`
(`sendMessageChannel`, `sendMessageIM`, `sendMessageIMLog`,
`sendMessageLog`); callers attach their own behavior to each. -/
inductive SendDest where
  | chan
  | im
  | imLog
  | log
  deriving DecidableEq, BEq

def xStr : Str := "x".data

def removedText : Str := "(removed)".data

/-- Go `strings.Join(args, sep)`. -/
def joinSep (sep : Str) : List Str → Str
  | [] => []
  | [a] => a
  | a :: rest => a ++ sep ++ joinSep sep rest

/-- The `"I didn't quite understand that, sorry.\nYou said: [...]"` IM
text of the no-such-command arm (lines 737-738). -/
def nscIMText (args : CommandArguments) : Str :=
  "I didn".data ++ [squote] ++ "t quite understand that, sorry.\nYou said: [".data ++
    joinSep "] [".data args.originalArguments ++ "]".data

/-- The log text of the no-such-command arm (lines 741-744). -/
def nscLogText (src : Source) (args : CommandArguments) : Str :=
  "No such command from ".data ++ src.userID ++ "\nArgs: [".data ++
    joinSep "] [".data args.originalArguments ++ "]\nLink: ".data ++ src.archiveLink

/-- The truncated channel message of the default arm (line 694). -/
def truncatedChanMsg (env : Env) (message : Str) : Str :=
  "[Reply truncated]\n".data ++ env.preview message env.longReplyCut ++ "…\n".data

/-- Go `SendReplyMessages`: compute the destination set from the result
code and the result override, then emit the shaped texts in program
order as `(callback, text)` pairs.  The callbacks themselves are bound
by each caller.  The two `fallthrough` arms (`ok`, `failure`) and the
`default` arm share one body; with the closed code set the `default`
arm is otherwise unreachable.  `result.Err` is read as text with `""`
for `nil` (where Go would fault on a `nil` error, which no provided
caller produces for an `error`-coded result); `errors.Cause` is
modelled as the error text itself. -/
def SendReplyMessages (env : Env) (result : CommandResult) (src : Source)
    (isChannelIMChannel : Bool) : List (SendDest × Str) :=
  let replyType0 :=
    match result.code with
    | .ok => ReplyTypeInChannel
    | .failure => ReplyTypeShortProblem
    | .error => ReplyTypeShortProblem
    | .noSuchCommand => ReplyTypePM
    | .printUsage => ReplyTypePM
    | .printHelp => ReplyTypeInChannel
  let rt := if result.replyType &&& ReplyTypeDestinations = ReplyTypeInvalid
            then result.replyType ||| replyType0 else result.replyType
  let replyChannel0 := rt &&& ReplyTypeInChannel ≠ 0
  let replyIM0 := rt &&& ReplyTypePM ≠ 0
  let replyLog : Bool := decide (rt &&& ReplyTypeLog ≠ 0)
  let collapse := (replyChannel0 ∨ replyIM0) ∧ isChannelIMChannel = true
  let replyIMPrimary : Bool := decide collapse
  let replyChannel : Bool := decide (replyChannel0 ∧ ¬ collapse)
  let replyIM : Bool := decide (replyIM0 ∧ ¬ collapse)
  match result.code with
  | .error =>
    let msg := if result.message = [] then "Error".data else result.message
    let errStr := result.err.getD []
    let replyIM2 := replyIM || (replyChannel && decide (errStr.length > env.shortReplyThreshold))
    (if replyChannel then
      [(SendDest.chan, msg ++ ": ".data ++ env.preview errStr env.shortReplyThreshold)]
     else []) ++
    (if replyIMPrimary then [(SendDest.imLog, msg ++ ": ".data ++ errStr)]
     else if replyIM2 then
      [(SendDest.imLog, msg ++ ": ".data ++ errStr ++ "\n".data ++ src.archiveLink)]
     else []) ++
    (if replyLog then
      [(SendDest.log, src.archiveLink ++ "\n".data ++ fence ++ "\n".data ++ errStr
          ++ "\n".data ++ fence)]
     else [])
  | .noSuchCommand =>
    (if replyIM || replyIMPrimary then [(SendDest.imLog, nscIMText result.args)] else []) ++
    (if replyLog then [(SendDest.log, nscLogText src result.args)] else [])
  | .printHelp =>
    let tooLong := replyChannel && decide (result.message.length > env.longReplyThreshold)
    let chanMsg := if tooLong then env.preview result.message env.longReplyCut
                   else result.message
    let replyIM2 := replyIM || tooLong
    (if replyChannel then [(SendDest.chan, chanMsg)] else []) ++
    (if replyIM2 || replyIMPrimary then [(SendDest.im, result.message)] else [])
  | .printUsage =>
    let tooLong := replyChannel && decide (result.message.length > env.longReplyThreshold)
    let chanMsg := if tooLong then env.preview result.message env.longReplyCut
                   else result.message
    let replyIM2 := replyIM || tooLong
    (if replyChannel then [(SendDest.chan, chanMsg)] else []) ++
    (if replyIM2 || replyIMPrimary then [(SendDest.im, result.message)] else [])
  | _ =>
    if result.message = [] then []
    else
      let tooLong := replyChannel && decide (result.message.length > env.longReplyThreshold)
      let chanMsg0 := if tooLong then truncatedChanMsg env result.message else result.message
      let chanMsg := if rt &&& ReplyTypeFlagOmitUsername = 0
                     then src.userID ++ ": ".data ++ chanMsg0 else chanMsg0
      let replyIM2 := replyIM || tooLong
      (if replyChannel then [(SendDest.chan, chanMsg)] else []) ++
      (if replyIMPrimary then [(SendDest.im, result.message)] else []) ++
      (if replyIM2 then [(SendDest.im, result.message)] else []) ++
      (if replyLog then [(SendDest.log, result.message ++ "\n".data ++ src.archiveLink)]
       else [])

/-! ## Initial processing (`ProcessInitialCommandMessage`, lines 271-342) -/

/-- Modelled from the spec: `marvin.CmdFailuref` (not among the provided
sources) builds a failure result carrying the formatted message and the
arguments; the remaining fields take their zero values. -/
def CmdFailuref (args : CommandArguments) (msg : Str) : CommandResult :=
  CommandResult.mk .failure msg none 0 0 false args

/-- The Go error strings of the three `errors.Errorf` sites of
`ParseArgs`. -/
def tokenizeErrText : TokenizeError → Str
  | .notANumber ds =>
    "Expected a code block number after &, got [".data ++ ds ++ "]".data
  | .zeroIndex => "Code block indices start at &1".data
  | .outOfRange ds n =>
    "Found code block ref ".data ++ [squote] ++ ds ++ [squote] ++
      " but only ".data ++ (Nat.repr n).data ++ " code blocks in message".data

/-- The action source built from the triggering message
(`marvin.ActionSourceUserMessage`). -/
def mkSource (env : Env) (ev : MsgEvent) : Source :=
  { userID := ev.userID, channelID := ev.msgID.channel, msgID := ev.msgID,
    archiveLink := env.archive ev.msgID }

/-- One send callback of `ProcessInitialCommandMessage` (closures at
lines 306-337): a channel or log send applies `SanitizeForChannel`, an
IM send applies `SanitizeLoose`; on transport success the sent message
is recorded in the matching action slot with the unsanitized text. -/
def applyInitialSend (env : Env) (chanID imID logID : Str)
    (fci : FinishedCommandInfo) (d : SendDest × Str) :
    FinishedCommandInfo × Effect :=
  match d.1 with
  | .chan =>
    let t := SanitizeForChannel d.2
    (match env.send chanID t with
     | some ts => { fci with actionChanMsg := ⟨⟨chanID, ts⟩, d.2⟩ }
     | none => fci,
     Effect.sendMessage chanID t)
  | .im =>
    let t := SanitizeLoose d.2
    (match env.send imID t with
     | some ts => { fci with actionPMMsg := ⟨⟨imID, ts⟩, d.2⟩ }
     | none => fci,
     Effect.sendMessage imID t)
  | .imLog =>
    let t := SanitizeLoose d.2
    (match env.send imID t with
     | some ts => { fci with actionPMLogMsg := ⟨⟨imID, ts⟩, d.2⟩ }
     | none => fci,
     Effect.sendMessage imID t)
  | .log =>
    let t := SanitizeForChannel d.2
    (match env.send logID t with
     | some ts => { fci with actionLogMsg := ⟨⟨logID, ts⟩, d.2⟩ }
     | none => fci,
     Effect.sendMessage logID t)

def applyInitialSends (env : Env) (chanID imID logID : Str) :
    FinishedCommandInfo → List (SendDest × Str) → FinishedCommandInfo × List Effect
  | fci, [] => (fci, [])
  | fci, d :: rest =>
    let p := applyInitialSend env chanID imID logID fci d
    let q := applyInitialSends env chanID imID logID p.1 rest
    (q.1, p.2 :: q.2)

/-- Go `ProcessInitialCommandMessage`: on a tokenization error build a
failure result via `CmdFailuref` without dispatching, otherwise
dispatch; react with the per-code acknowledgment emoji; then route the
reply.  The reaction is issued on a separate task joined before return
(`wg.Wait`); effects are recorded in issue order. -/
def ProcessInitialCommandMessage (env : Env) (fci : FinishedCommandInfo)
    (ev : MsgEvent) : FinishedCommandInfo × List Effect :=
  let pr := fci.parseResult
  let src := mkSource env ev
  let args := CommandArguments.mk pr.argSplit pr.argSplit [] src false false none 0
  let result := match pr.splitErr with
    | some e => CmdFailuref args (tokenizeErrText e)
    | none => env.dispatch args
  let dispEffs := match pr.splitErr with
    | some _ => []
    | none => [Effect.dispatchCmd args]
  let fci1 := { fci with commandArgs := some args, commandResult := result }
  let reactEmoji := GetEmojiForResponse env result
  let fci2 := if reactEmoji ≠ [] then
      { fci1 with actionEmoji := fci1.actionEmoji ++ [⟨ev.msgID, reactEmoji⟩] }
    else fci1
  let reactEffs := if reactEmoji ≠ [] then [Effect.reactMessage ev.msgID reactEmoji] else []
  let imChannel := env.getIM ev.userID
  let sends := SendReplyMessages env result src (ev.msgID.channel == imChannel)
  let p := applyInitialSends env ev.msgID.channel imChannel env.logChannel fci2 sends
  (p.1, dispEffs ++ reactEffs ++ p.2)

/-! ## Edit reprocessing (`EditCommand`, lines 418-528) -/

/-- The channel notice of the `CmdResultError` arm of `EditCommand`
(lines 434-435), sent without sanitization. -/
def editErrChanNotice (src : Source) : Str :=
  src.userID ++
    ": You may not edit a command that resulted in an error. Repeat the corrected command in a new message.".data

/-- The IM notice of the `CmdResultError` arm of `EditCommand`
(lines 437-438). -/
def editErrIMNotice (src : Source) : Str :=
  "For safety, you cannot edit a command that resulted in an error. ".data ++
    src.archiveLink

/-- The IM notice of the `forbidden` path of `EditCommand`
(lines 451-452). -/
def editForbiddenNotice (src : Source) : Str :=
  "That command does not support editing. ".data ++ src.archiveLink

/-- One send callback of `EditCommand` (closures at lines 481-516): a
channel or IM send updates the previously posted message in place when
one exists (the stored text is left as it was), otherwise posts a new
message and records it — with the message identity built from
`imChannel` even for the channel send, and with the (possibly empty)
timestamp recorded even on a transport error, exactly as in the Go
code. -/
def applyEditSend (env : Env) (src : Source) (imChannel logID : Str)
    (fci : FinishedCommandInfo) (d : SendDest × Str) :
    FinishedCommandInfo × Effect :=
  match d.1 with
  | .chan =>
    if fci.actionChanMsg.text ≠ [] then
      (fci, Effect.updateMessage fci.actionChanMsg.messageID d.2)
    else
      let t := SanitizeForChannel d.2
      let ts := (env.send src.channelID t).getD []
      ({ fci with actionChanMsg := ⟨⟨imChannel, ts⟩, d.2⟩ },
       Effect.sendMessage src.channelID t)
  | .im =>
    if fci.actionPMMsg.text ≠ [] then
      (fci, Effect.updateMessage fci.actionPMMsg.messageID d.2)
    else
      let t := SanitizeLoose d.2
      let ts := (env.send imChannel t).getD []
      ({ fci with actionPMMsg := ⟨⟨imChannel, ts⟩, d.2⟩ },
       Effect.sendMessage imChannel t)
  | .imLog =>
    (fci, Effect.sendMessage imChannel (SanitizeLoose d.2))
  | .log =>
    (fci, Effect.sendMessage logID (SanitizeForChannel d.2))

def applyEditSends (env : Env) (src : Source) (imChannel logID : Str) :
    FinishedCommandInfo → List (SendDest × Str) → FinishedCommandInfo × List Effect
  | fci, [] => (fci, [])
  | fci, d :: rest =>
    let p := applyEditSend env src imChannel logID fci d
    let q := applyEditSends env src imChannel logID p.1 rest
    (q.1, p.2 :: q.2)

/-- The re-dispatch tail of `EditCommand` (lines 458-527): rebuild the
arguments with `IsEdit` set and the previous result carried forward,
dispatch, reconcile the acknowledgment emoji to the new result code
plus a fast-forward marker, route the reply through the edit
callbacks, and retract (`"(removed)"`) any previously posted channel
or private reply that this round did not re-send. -/
def editRedispatch (env : Env) (fci : FinishedCommandInfo) (src : Source)
    (imChannel : Str) : FinishedCommandInfo × List Effect :=
  let args := CommandArguments.mk fci.parseResult.argSplit fci.parseResult.argSplit []
    src true false (some fci.commandResult) fci.commandResult.args.moduleData
  let result := env.dispatch args
  let fci1 := { fci with commandResult := result, commandArgs := some args }
  let newEmojiAry : List ReplyActionEmoji :=
    [⟨fci.originalMsgID, GetEmojiForResponse env result⟩,
     ⟨fci.originalMsgID, "fast_forward".data⟩]
  let p := ChangeEmoji fci1 newEmojiAry
  let sends := SendReplyMessages env result src (src.channelID == imChannel)
  let q := applyEditSends env src imChannel env.logChannel p.1 sends
  let didChan := sends.any (fun d => d.1 == SendDest.chan)
  let didIM := sends.any (fun d => d.1 == SendDest.im)
  let fci3 := q.1
  let r1 := if fci3.actionChanMsg.text ≠ [] ∧ didChan = false then
      ({ fci3 with actionChanMsg := ⟨⟨[], []⟩, []⟩ },
       [Effect.updateMessage fci3.actionChanMsg.messageID removedText])
    else (fci3, ([] : List Effect))
  let fci4 := r1.1
  let r2 := if fci4.actionPMMsg.text ≠ [] ∧ didIM = false then
      ({ fci4 with actionPMMsg := ⟨⟨[], []⟩, []⟩ },
       [Effect.updateMessage fci4.actionPMMsg.messageID removedText])
    else (fci4, ([] : List Effect))
  (r2.1, Effect.dispatchCmd args :: p.2 ++ q.2 ++ r1.2 ++ r2.2)

/-- The `forbidden` exit of `EditCommand` (lines 450-456). -/
def editForbidden (fci : FinishedCommandInfo) (src : Source)
    (imChannel : Str) : FinishedCommandInfo × List Effect :=
  ({ fci with actionEmoji := fci.actionEmoji ++ [⟨fci.originalMsgID, xStr⟩] },
   [Effect.sendMessage imChannel (editForbiddenNotice src),
    Effect.reactMessage fci.originalMsgID xStr])

/-- Go `EditCommand`: the permission check (lines 423-456) and, when
the edit is allowed, the re-dispatch tail.  `CanEdit = 1` skips the
per-code switch entirely; `CanEdit = -1` forbids; under the default
flag the code decides — no-such-command, usage, help and failure
proceed, success is forbidden, and an error produces its own notice
(to the origin channel when a channel reply was posted, otherwise to
the editing user's IM) plus a negative-acknowledgment reaction,
without dispatching. -/
def EditCommand (env : Env) (fci : FinishedCommandInfo) (src : Source) :
    FinishedCommandInfo × List Effect :=
  let imChannel := env.getIM src.userID
  if fci.commandResult.canEdit = 1 then
    editRedispatch env fci src imChannel
  else if fci.commandResult.canEdit = -1 then
    editForbidden fci src imChannel
  else
    match fci.commandResult.code with
    | .error =>
      let notice :=
        if fci.actionChanMsg.text ≠ [] then
          Effect.sendMessage fci.actionChanMsg.messageID.channel (editErrChanNotice src)
        else
          Effect.sendMessage imChannel (editErrIMNotice src)
      ({ fci with actionEmoji := fci.actionEmoji ++ [⟨fci.originalMsgID, xStr⟩] },
       [notice, Effect.reactMessage fci.originalMsgID xStr])
    | .ok => editForbidden fci src imChannel
    | _ => editRedispatch env fci src imChannel

/-! ## Undo (`UndoCommand`, lines 530-579) -/

/-- The IM refusal notice for undoing an un-undoable success
(lines 544-545). -/
def undoNoSupportNotice (src : Source) : Str :=
  "That command does not support undo. ".data ++ src.archiveLink

/-- The IM refusal notice for undoing an error result
(lines 558-559). -/
def undoErrNotice (src : Source) : Str :=
  "For safety, you cannot undo a command that resulted in an error. ".data ++
    src.archiveLink

/-- The fall-out tail of the `UndoCommand` switch (lines 572-579),
reached by `ok`-with-undo and by `failure`: retract the channel reply
when the result did not opt in to undo, then reconcile the emoji to
the greeting set. The code after the `return` on line 579 is
unreachable and is not modelled. -/
def undoTail (fci : FinishedCommandInfo) (newEmoji : List ReplyActionEmoji) :
    FinishedCommandInfo × List Effect :=
  let e1 := if fci.commandResult.canUndo = false ∧ fci.actionChanMsg.text ≠ [] then
      [Effect.updateMessage fci.actionChanMsg.messageID removedText]
    else []
  let p := ChangeEmoji fci newEmoji
  (p.1, e1 ++ p.2)

/-- Go `UndoCommand`: refuse undo of an error always and of a success
without the undo opt-in (private notice, `WasUndone` cleared, `x`
reaction, entry otherwise untouched); trivially undo
no-such-command/usage/help by updating the posted replies to
`"(removed)"` and restoring the greeting emoji set; otherwise fall to
the tail. -/
def UndoCommand (env : Env) (fci : FinishedCommandInfo) (src : Source) :
    FinishedCommandInfo × List Effect :=
  let newEmoji : List ReplyActionEmoji :=
    if fci.parseResult.wave then [⟨fci.originalMsgID, env.emojiHi⟩] else []
  match fci.commandResult.code with
  | .ok =>
    if fci.commandResult.canUndo then undoTail fci newEmoji
    else
      let imChannel := env.getIM src.userID
      ({ fci with wasUndone := false,
                  actionEmoji := fci.actionEmoji ++ [⟨fci.originalMsgID, xStr⟩] },
       [Effect.sendMessage imChannel (undoNoSupportNotice src),
        Effect.reactMessage fci.originalMsgID xStr])
  | .failure => undoTail fci newEmoji
  | .error =>
    let imChannel := env.getIM src.userID
    ({ fci with wasUndone := false,
                actionEmoji := fci.actionEmoji ++ [⟨fci.originalMsgID, xStr⟩] },
     [Effect.sendMessage imChannel (undoErrNotice src),
      Effect.reactMessage fci.originalMsgID xStr])
  | _ =>
    let e1 := if fci.actionChanMsg.text ≠ [] then
        [Effect.updateMessage fci.actionChanMsg.messageID removedText]
      else []
    let e2 := if fci.actionPMMsg.text ≠ [] then
        [Effect.updateMessage fci.actionPMMsg.messageID removedText]
      else []
    let p := ChangeEmoji { fci with wasUndone := true } newEmoji
    (p.1, e1 ++ e2 ++ p.2)

/-! ## Edit event handling (`HandleEdit`, lines 344-416) -/

/-- Go `HandleEdit`, for a `message_changed` event whose message id is
found in the tracker.  The subtype and text assertions, the
out-of-order-delivery sleep, and the tracker lock are outside the
model.  The edit payload is recorded in `latestEdit` first (line 377);
a re-parse structurally equal to the stored intent then short-circuits
with no further effect (lines 380-383).  Otherwise: transition to
command (clear reactions and run the initial processing), to
non-command (undo), or re-dispatch via `EditCommand`.  The
`myActionEmoji` variable computed on the wave branch is never read in
the Go code and is not modelled.  `none` models a fault propagated
from `ParseMessage`. -/
def HandleEdit (env : Env) (fci : FinishedCommandInfo) (ev : MsgEvent) :
    Option (FinishedCommandInfo × List Effect) :=
  let fci1 := { fci with latestEdit := some ev }
  match ParseMessage env.bot ev.msgID.channel ev.text with
  | none => none
  | some pr =>
    if pr = fci.parseResult then some (fci1, [])
    else
      let myFoundCommand : Bool :=
        decide (pr.wave = false ∧ (pr.argSplit ≠ [] ∨ pr.splitErr ≠ none))
      let fci2 := { fci1 with parseResult := pr }
      if fci.foundCommand = false then
        if myFoundCommand then
          let p := ChangeEmoji fci2 []
          let fci4 := { p.1 with foundCommand := true, actionEmoji := [] }
          let q := ProcessInitialCommandMessage env fci4 ev
          some (q.1, p.2 ++ q.2)
        else some (fci2, [])
      else
        if myFoundCommand = false then
          let src := mkSource env ev
          let p := UndoCommand env fci2 src
          some ({ p.1 with foundCommand := false, parseResult := pr }, p.2)
        else
          some (EditCommand env fci2 (mkSource env ev))

/-! ## Factoid store (`factoid` module) -/

/-- The factoid name length limit in bytes (part_000 line 13). -/
def FactoidNameMaxLen : Nat := 75

/-- Go `len(name)`: the UTF-8 byte length of the string. -/
def utf8Len (s : Str) : Nat := (s.map Char.utf8Size).sum

/-- A row of `module_factoid_factoids` as written by `sqlMakeFactoid`
(`last_set` is a database-side timestamp, outside the model). -/
structure FactoidRow where
  name : Str
  channelOnly : Option Str
  rawtext : Str
  lastSetUser : Str
  lastSetChannel : Str
  lastSetTs : Str
  deriving DecidableEq

/-- The factoid table, as the sequence of inserted rows. -/
abbrev FactoidStore := List FactoidRow

/-- The error text of the length check (part_000 line 179). -/
def factoidNameTooLongErr (n : Nat) : Str :=
  "Factoid name is too long (".data ++ (Nat.repr n).data ++ " > ".data ++
    (Nat.repr FactoidNameMaxLen).data ++ ")".data

/-- The wrapped database error text (part_000 lines 183 and 194). -/
def dbErrText : Str := "Database error".data

/-- Go `SaveFactoid` (part_000 lines 177-197): reject a name longer
than `FactoidNameMaxLen` bytes before touching the database; otherwise
insert a row via `sqlMakeFactoid`, an empty channel scope being stored
as NULL.  `dbOk` models whether the prepare/exec round-trip succeeds;
its failure is wrapped as a database error.  Returns the store after
the call and the error result. -/
def SaveFactoid (dbOk : Bool) (store : FactoidStore) (name channel rawSource : Str)
    (src : Source) : FactoidStore × Option Str :=
  if utf8Len name > FactoidNameMaxLen then
    (store, some (factoidNameTooLongErr (utf8Len name)))
  else if dbOk = false then (store, some dbErrText)
  else
    (store ++ [{ name := name,
                 channelOnly := if channel ≠ [] then some channel else none,
                 rawtext := rawSource,
                 lastSetUser := src.userID,
                 lastSetChannel := src.channelID,
                 lastSetTs := src.msgID.ts }], none)

/-! ## Theorems -/

/-- The eager counterpart of `substLoop`, with the code-block list an
explicit argument instead of a lazily computed memo. -/
def substLoopEager (blocks : List Str) :
    List Str → Option TokenizeError → Option (List Str × Option TokenizeError)
  | [], err => some ([], err)
  | v :: rest, err =>
    let str := trimSpace v
    match takeCodeBlockRef str with
    | none => (substLoopEager blocks rest err).map (fun p => (str :: p.1, p.2))
    | some ds =>
      match atoi ds with
      | none =>
        (substLoopEager blocks rest (some (.notANumber ds))).map (fun p => (v :: p.1, p.2))
      | some which =>
        if which = 0 then
          (substLoopEager blocks rest (some .zeroIndex)).map (fun p => (v :: p.1, p.2))
        else if which - 1 > blocks.length then
          (substLoopEager blocks rest (some (.outOfRange ds blocks.length))).map
            (fun p => (v :: p.1, p.2))
        else
          match blocks[which - 1]? with
          | none => none
          | some content =>
            (substLoopEager blocks rest err).map (fun p => (content :: p.1, p.2))

/-- `ParseArgs` factored through its two independent inputs: the tokens
of one command line, and the code blocks of the whole raw message. -/
def ParseArgsOn (cmdLine : Str) (blocks : List Str) :
    Option (List Str × Option TokenizeError) :=
  substLoopEager blocks (shellSplit (trimLeftSp cmdLine)) none

theorem substLoop_eq_eager (raw : Str) :
    ∀ (toks : List Str) (memo : Option (List Str)) (err : Option TokenizeError),
      memo = none ∨ memo = some (findCodeBlocks raw) →
      substLoop raw toks memo err = substLoopEager (findCodeBlocks raw) toks err := by
  intro toks
  induction toks with
  | nil => intro memo err _; rfl
  | cons v rest ih =>
    intro memo err hmemo
    rcases hmemo with h | h
    · subst h
      simp only [substLoop, substLoopEager]
      cases htk : takeCodeBlockRef (trimSpace v) with
      | none =>
        dsimp only
        rw [ih none err (Or.inl rfl)]
      | some ds =>
        dsimp only
        cases hat : atoi ds with
        | none =>
          dsimp only
          rw [ih _ _ (Or.inr rfl)]
        | some which =>
          dsimp only
          by_cases h0 : which = 0
          · rw [if_pos h0, if_pos h0, ih _ _ (Or.inr rfl)]
          · rw [if_neg h0, if_neg h0]
            by_cases h1 : which - 1 > (findCodeBlocks raw).length
            · rw [if_pos h1, if_pos h1, ih _ _ (Or.inr rfl)]
            · rw [if_neg h1, if_neg h1]
              cases hg : (findCodeBlocks raw)[which - 1]? with
              | none => rfl
              | some content =>
                dsimp only
                rw [ih _ _ (Or.inr rfl)]
    · subst h
      simp only [substLoop, substLoopEager]
      cases htk : takeCodeBlockRef (trimSpace v) with
      | none =>
        dsimp only
        rw [ih _ err (Or.inr rfl)]
      | some ds =>
        dsimp only
        cases hat : atoi ds with
        | none =>
          dsimp only
          rw [ih _ _ (Or.inr rfl)]
        | some which =>
          dsimp only
          by_cases h0 : which = 0
          · rw [if_pos h0, if_pos h0, ih _ _ (Or.inr rfl)]
          · rw [if_neg h0, if_neg h0]
            by_cases h1 : which - 1 > (findCodeBlocks raw).length
            · rw [if_pos h1, if_pos h1, ih _ _ (Or.inr rfl)]
            · rw [if_neg h1, if_neg h1]
              cases hg : (findCodeBlocks raw)[which - 1]? with
              | none => rfl
              | some content =>
                dsimp only
                rw [ih _ _ (Or.inr rfl)]

/-- Claim C10: `ParseArgs` tokenizes only the text from the start index
up to the first newline (or end of text) into argument tokens, while
`&N` back-references are resolved against the fenced code blocks found
anywhere in the entire raw message — equivalently, `ParseArgs raw i`
factors through the command line `lineFrom raw i` and the whole-message
block list `findCodeBlocks raw`; the concrete conjunct shows a
back-reference on the command line resolving to a code block that lies
entirely on later lines. -/
theorem c10_parseargs_line_and_blocks (raw : Str) (startIdx : Nat) :
    ParseArgs raw startIdx = ParseArgsOn (lineFrom raw startIdx) (findCodeBlocks raw) ∧
    ParseArgs "run &amp;1\n```\nxyz\n```".data 0 = some (["run".data, "xyz".data], none) := by
  constructor
  · exact substLoop_eq_eager raw _ none none (Or.inl rfl)
  · decide

def c1raw3 : Str := "&amp;3\n```\na\n```\n```\nb\n```".data

def c1raw2 : Str := "&amp;2\n```\na\n```\n```\nb\n```".data

def c1raw0 : Str := "&amp;0\n```\na\n```\n```\nb\n```".data

def c1raw4 : Str := "&amp;4\n```\na\n```\n```\nb\n```".data

/-- Claim C1: on a message with exactly two fenced code blocks, the
back-reference `&2` resolves to the second block and `&0` and `&4`
yield tokenization errors, but `&3` — one past the number of blocks —
does not return a tokenization error: the guard `which >
len(codeBlocks)` (atcommand.go line 811) lets `which = 2` through to
`codeBlocks[2]`, and the Go code faults with an index-out-of-range
panic (`none` in the model) instead of producing the error its own
message (`"... but only %d code blocks in message"`) was written
for. -/
theorem c1_backref_off_by_one_fault :
    findCodeBlocks c1raw3 = ["a".data, "b".data] ∧
    ParseArgs c1raw3 0 = none ∧
    ParseArgs c1raw2 0 = some (["b".data], none) ∧
    ParseArgs c1raw0 0 = some (["&amp;0".data], some TokenizeError.zeroIndex) ∧
    ParseArgs c1raw4 0 =
      some (["&amp;4".data], some (TokenizeError.outOfRange "4".data 2)) := by
  refine ⟨?_, ?_, ?_, ?_, ?_⟩ <;> decide

/-- Claim C5: message parsing is deterministic — two invocations of
`ParseMessage` on the same (text, addressing context) pair return
structurally equal results, including the wave flag, the argument
token list, and the tokenization error field.  (The model is a pure
function of its inputs: the Go method reads only the immutable
compiled mention patterns beyond its arguments.) -/
theorem c5_parse_deterministic (bot₁ bot₂ ch₁ ch₂ t₁ t₂ : Str)
    (hb : bot₁ = bot₂) (hc : ch₁ = ch₂) (ht : t₁ = t₂) :
    ParseMessage bot₁ ch₁ t₁ = ParseMessage bot₂ ch₂ t₂ ∧
    (∀ r₁ r₂, ParseMessage bot₁ ch₁ t₁ = some r₁ → ParseMessage bot₂ ch₂ t₂ = some r₂ →
      r₁.wave = r₂.wave ∧ r₁.argSplit = r₂.argSplit ∧ r₁.splitErr = r₂.splitErr ∧
      r₁.lenientNoSuchCommand = r₂.lenientNoSuchCommand) := by
  subst hb hc ht
  refine ⟨rfl, ?_⟩
  intro r₁ r₂ h₁ h₂
  rw [h₁] at h₂
  injection h₂ with h₂
  subst h₂
  exact ⟨rfl, rfl, rfl, rfl⟩

/-- Claim C5 witness: the determinism theorem applied at a concrete
direct-message input. -/
theorem c5_parse_deterministic_witness :
    ParseMessage "U1".data "D123".data "echo hi".data =
      ParseMessage "U1".data "D123".data "echo hi".data :=
  (c5_parse_deterministic _ _ _ _ _ _ rfl rfl rfl).1

theorem emojiPairMatch_iff (v : ReplyActionEmoji) (l : List ReplyActionEmoji) :
    emojiPairMatch v l = true ↔ v ∈ l := by
  unfold emojiPairMatch
  rw [List.any_eq_true]
  constructor
  · rintro ⟨v2, hv2, hp⟩
    simp only [Bool.and_eq_true, decide_eq_true_eq] at hp
    obtain ⟨h1, h2⟩ := hp
    cases v
    cases v2
    simp only [ReplyActionEmoji.mk.injEq] at h1 h2 ⊢
    simp_all
  · intro hv
    exact ⟨v, hv, by simp⟩

theorem emojiPairMatch_false_iff (v : ReplyActionEmoji) (l : List ReplyActionEmoji) :
    emojiPairMatch v l = false ↔ v ∉ l := by
  constructor
  · intro h hmem
    rw [(emojiPairMatch_iff v l).mpr hmem] at h
    exact Bool.noConfusion h
  · intro h
    cases hb : emojiPairMatch v l with
    | false => rfl
    | true => exact absurd ((emojiPairMatch_iff v l).mp hb) h

/-- Claim C7: `ChangeEmoji` issues a removal request for exactly the
(message identity, emoji) pairs in the current set but not the desired
set, an addition request for exactly the pairs in the desired set but
not the current set, and afterwards the entry's tracked reaction set
equals the desired set exactly (wholesale replacement). -/
theorem c7_reaction_reconciliation (cur new : List ReplyActionEmoji)
    (m : MessageID) (e : Str) (fci : FinishedCommandInfo) :
    (Effect.removeReaction m e ∈ ChangeEmojiEffects cur new ↔
      (⟨m, e⟩ : ReplyActionEmoji) ∈ cur ∧ (⟨m, e⟩ : ReplyActionEmoji) ∉ new) ∧
    (Effect.reactMessage m e ∈ ChangeEmojiEffects cur new ↔
      (⟨m, e⟩ : ReplyActionEmoji) ∈ new ∧ (⟨m, e⟩ : ReplyActionEmoji) ∉ cur) ∧
    (ChangeEmoji fci new).1.actionEmoji = new ∧
    (ChangeEmoji fci new).2 = ChangeEmojiEffects fci.actionEmoji new := by
  refine ⟨?_, ?_, rfl, rfl⟩
  · simp only [ChangeEmojiEffects, List.mem_append, List.mem_map, List.mem_filter,
      Bool.not_eq_eq_eq_not, Bool.not_true, emojiPairMatch_iff]
    constructor
    · rintro (⟨a, ⟨ha, hna⟩, hae⟩ | ⟨a, _, hae⟩)
      · cases a
        simp only [Effect.removeReaction.injEq] at hae
        obtain ⟨h1, h2⟩ := hae
        subst h1
        subst h2
        exact ⟨ha, (emojiPairMatch_false_iff _ _).mp hna⟩
      · exact absurd hae (by simp)
    · rintro ⟨hc, hn⟩
      exact Or.inl ⟨⟨m, e⟩, ⟨hc, (emojiPairMatch_false_iff _ _).mpr hn⟩, rfl⟩
  · simp only [ChangeEmojiEffects, List.mem_append, List.mem_map, List.mem_filter,
      Bool.not_eq_eq_eq_not, Bool.not_true, emojiPairMatch_iff]
    constructor
    · rintro (⟨a, _, hae⟩ | ⟨a, ⟨ha, hna⟩, hae⟩)
      · exact absurd hae (by simp)
      · cases a
        simp only [Effect.reactMessage.injEq] at hae
        obtain ⟨h1, h2⟩ := hae
        subst h1
        subst h2
        exact ⟨ha, (emojiPairMatch_false_iff _ _).mp hna⟩
    · rintro ⟨hc, hn⟩
      exact Or.inr ⟨⟨m, e⟩, ⟨hc, (emojiPairMatch_false_iff _ _).mpr hn⟩, rfl⟩

/-- Claim C9: `SaveFactoid` on a name longer than 75 bytes returns the
length-limit error and leaves the factoid store unchanged; for names
of 75 bytes or fewer the length check never rejects (any error is the
wrapped database error, never the length error). -/
theorem c9_factoid_name_length_gate (dbOk : Bool) (store : FactoidStore)
    (name channel rawSource : Str) (src : Source) :
    (utf8Len name > FactoidNameMaxLen →
      SaveFactoid dbOk store name channel rawSource src =
        (store, some (factoidNameTooLongErr (utf8Len name)))) ∧
    (utf8Len name ≤ FactoidNameMaxLen →
      (∀ n : Nat,
        (SaveFactoid dbOk store name channel rawSource src).2 ≠
          some (factoidNameTooLongErr n)) ∧
      (dbOk = true →
        (SaveFactoid dbOk store name channel rawSource src).2 = none)) := by
  constructor
  · intro hgt
    simp [SaveFactoid, hgt]
  · intro hle
    have hnot : ¬ utf8Len name > FactoidNameMaxLen := by omega
    constructor
    · intro n hcontra
      rcases hdb : dbOk with _ | _
      · simp only [SaveFactoid, if_neg hnot, hdb, if_pos rfl] at hcontra
        injection hcontra with hcontra
        have hD : dbErrText.head? = some 'D' := rfl
        rw [hcontra] at hD
        have hF : (factoidNameTooLongErr n).head? = some 'F' := rfl
        rw [hF] at hD
        exact absurd (Option.some.inj hD) (by decide)
      · simp [SaveFactoid, if_neg hnot, hdb] at hcontra
    · intro hdb
      simp [SaveFactoid, if_neg hnot, hdb]

/-- Claim C9 witness: the theorem applied to a 76-byte name (rejected,
store unchanged) and a 75-byte name (the length check passes and, with
the database healthy, the save succeeds). -/
theorem c9_factoid_name_length_gate_witness :
    (SaveFactoid true [] (List.replicate 76 'a') [] [] ⟨[], [], ⟨[], []⟩, []⟩ =
      ([], some (factoidNameTooLongErr 76)) ∧
     (SaveFactoid true [] (List.replicate 75 'a') [] [] ⟨[], [], ⟨[], []⟩, []⟩).2 = none) := by
  constructor
  · have h := (c9_factoid_name_length_gate true [] (List.replicate 76 'a') [] []
      ⟨[], [], ⟨[], []⟩, []⟩).1 (by decide)
    have he : utf8Len (List.replicate 76 'a') = 76 := by decide
    rw [he] at h
    exact h
  · exact ((c9_factoid_name_length_gate true [] (List.replicate 75 'a') [] []
      ⟨[], [], ⟨[], []⟩, []⟩).2 (by decide)).2 rfl

/-- Claim C4: processing an edit event for a tracked entry whose
freshly parsed intent is structurally equal to the entry's stored
parsed intent produces zero side effects — no dispatch, no message
posts or updates, no reaction changes — and mutates the entry only by
recording the edit payload in `latestEdit`. -/
theorem c4_equal_intent_edit_is_noop (env : Env) (fci : FinishedCommandInfo)
    (ev : MsgEvent)
    (h : ParseMessage env.bot ev.msgID.channel ev.text = some fci.parseResult) :
    HandleEdit env fci ev = some ({ fci with latestEdit := some ev }, []) := by
  unfold HandleEdit
  rw [h]
  simp

/-! Concrete fixtures shared by the witnesses below. -/

def emptyRSM : ReplyActionSentMessage := ⟨⟨[], []⟩, []⟩

def srcC : Source :=
  { userID := "U2".data, channelID := "C1".data,
    msgID := ⟨"C1".data, "100.1".data⟩, archiveLink := "arch".data }

def argsC : CommandArguments :=
  CommandArguments.mk ["echo".data, "hi".data] ["echo".data, "hi".data] [] srcC
    false false none 0

def envC : Env :=
  { bot := "U1".data, logChannel := "CLOG".data,
    getIM := fun _ => "D1".data, archive := fun _ => "arch".data,
    dispatch := fun a => CommandResult.mk .ok "hello".data none 0 0 false a,
    send := fun _ _ => some "ts9".data,
    emojiHi := "wave".data, emojiOk := "white_check_mark".data,
    emojiFail := "negative_squared_cross_mark".data, emojiError := "warning".data,
    emojiUnkCmd := "question".data, emojiUsage := "confused".data,
    emojiHelp := "memo".data,
    longReplyThreshold := 400, shortReplyThreshold := 35, longReplyCut := 300,
    preview := fun s n => s.take n }

def prEchoC : ParseMessageReturn :=
  { wave := false, argSplit := ["echo".data, "hi".data], splitErr := none,
    lenientNoSuchCommand := false }

def fciBaseC : FinishedCommandInfo :=
  { originalMsgID := ⟨"C1".data, "100.1".data⟩, latestEdit := none,
    parseResult := prEchoC, foundCommand := true, commandArgs := some argsC,
    commandResult := CommandResult.mk .ok "hello".data none 0 0 false argsC,
    wasUndone := false, actionEmoji := [],
    actionChanMsg := ⟨⟨"C1".data, "50.1".data⟩, "old reply".data⟩,
    actionPMMsg := emptyRSM, actionPMLogMsg := emptyRSM, actionLogMsg := emptyRSM }

def evEchoC : MsgEvent :=
  { msgID := ⟨"C1".data, "100.1".data⟩, userID := "U2".data,
    text := "<@U1> echo hi".data }

/-- Claim C4 witness: the theorem applied to a concrete tracked entry
and a concrete edit whose re-parse equals the stored intent. -/
theorem c4_equal_intent_edit_is_noop_witness :
    HandleEdit envC fciBaseC evEchoC =
      some ({ fciBaseC with latestEdit := some evEchoC }, []) :=
  c4_equal_intent_edit_is_noop envC fciBaseC evEchoC (by decide)

/-- Claim C6: undo of an error result is always refused, and undo of a
success result whose `CanUndo` flag is false is refused; in both cases
the only side effects are the private refusal notice and the negative
acknowledgment `x` reaction on the original message — the previously
posted public channel reply is neither updated nor re-sent, and
`WasUndone` remains false. -/
theorem c6_undo_refusal_frame (env : Env) (fci : FinishedCommandInfo) (src : Source) :
    (fci.commandResult.code = CmdCode.error →
      UndoCommand env fci src =
        ({ fci with
            wasUndone := false,
            actionEmoji := fci.actionEmoji ++ [⟨fci.originalMsgID, xStr⟩] },
         [Effect.sendMessage (env.getIM src.userID) (undoErrNotice src),
          Effect.reactMessage fci.originalMsgID xStr])) ∧
    (fci.commandResult.code = CmdCode.ok → fci.commandResult.canUndo = false →
      UndoCommand env fci src =
        ({ fci with
            wasUndone := false,
            actionEmoji := fci.actionEmoji ++ [⟨fci.originalMsgID, xStr⟩] },
         [Effect.sendMessage (env.getIM src.userID) (undoNoSupportNotice src),
          Effect.reactMessage fci.originalMsgID xStr])) ∧
    (fci.commandResult.code = CmdCode.error ∨
        (fci.commandResult.code = CmdCode.ok ∧ fci.commandResult.canUndo = false) →
      (UndoCommand env fci src).1.actionChanMsg = fci.actionChanMsg ∧
      (UndoCommand env fci src).1.wasUndone = false) := by
  refine ⟨?_, ?_, ?_⟩
  · intro hc
    simp [UndoCommand, hc]
  · intro hc hu
    simp [UndoCommand, hc, hu]
  · rintro (hc | ⟨hc, hu⟩)
    · simp [UndoCommand, hc]
    · simp [UndoCommand, hc, hu]

/-- Claim C6 witness: the theorem applied to a concrete entry with an
error result and to one with a success result without the undo opt-in,
both holding a previously posted channel reply. -/
theorem c6_undo_refusal_frame_witness :
    (UndoCommand envC
        { fciBaseC with commandResult :=
            CommandResult.mk .error "Error".data (some "boom".data) 0 0 false argsC }
        srcC =
      ({ fciBaseC with
          commandResult :=
            CommandResult.mk .error "Error".data (some "boom".data) 0 0 false argsC,
          wasUndone := false,
          actionEmoji := [⟨fciBaseC.originalMsgID, xStr⟩] },
       [Effect.sendMessage "D1".data (undoErrNotice srcC),
        Effect.reactMessage fciBaseC.originalMsgID xStr])) ∧
    (UndoCommand envC fciBaseC srcC =
      ({ fciBaseC with
          wasUndone := false,
          actionEmoji := [⟨fciBaseC.originalMsgID, xStr⟩] },
       [Effect.sendMessage "D1".data (undoNoSupportNotice srcC),
        Effect.reactMessage fciBaseC.originalMsgID xStr])) := by
  constructor
  · exact (c6_undo_refusal_frame envC
      { fciBaseC with commandResult :=
          CommandResult.mk .error "Error".data (some "boom".data) 0 0 false argsC }
      srcC).1 rfl
  · exact (c6_undo_refusal_frame envC fciBaseC srcC).2.1 rfl rfl

/-- Does the effect trace contain a `DispatchCommand` call? -/
def hasDispatchEffect : List Effect → Bool
  | [] => false
  | Effect.dispatchCmd _ :: _ => true
  | _ :: rest => hasDispatchEffect rest

def fciForceAllowErrC : FinishedCommandInfo :=
  { fciBaseC with
    commandResult := CommandResult.mk .error "Error".data (some "boom".data) 0 1 false argsC }

/-- Claim C2 counterexample: a tracked entry whose stored result has
code error and edit-permission flag forceAllow (`CanEdit = 1`) IS
re-dispatched by `EditCommand` — the `CanEdit == 1` branch (atcommand.go
line 423) skips the per-code switch, so the error check never runs and
no notice is sent.  This refutes "never re-dispatches, regardless of
the result's edit-permission flag". -/
theorem c2_counterexample_forceallow_error_redispatches :
    fciForceAllowErrC.commandResult.code = CmdCode.error ∧
    fciForceAllowErrC.commandResult.canEdit = 1 ∧
    hasDispatchEffect (EditCommand envC fciForceAllowErrC srcC).2 = true := by
  refine ⟨rfl, rfl, ?_⟩
  rfl

/-- Claim C2 as amended: under the DEFAULT edit-permission flag
(`CanEdit = 0`), an edit of an entry whose stored result has code
error never re-dispatches; instead a notice directing the user to
repeat the corrected command is sent to the origin channel when a
channel reply had been posted, or a safety notice to the user's IM
otherwise, and the original message gets the negative-acknowledgment
`x` reaction.  Under the same default flag, re-dispatch happens
exactly for the no-such-command, usage, help and failure codes, and is
forbidden (private notice, no dispatch) for the success code.  (Under
`CanEdit = 1` the error check is bypassed — see the counterexample —
and under `CanEdit = -1` the generic refusal notice is sent
instead.) -/
theorem c2_amended_edit_permission_policy (env : Env) (fci : FinishedCommandInfo)
    (src : Source) (hdefault : fci.commandResult.canEdit = 0) :
    (fci.commandResult.code = CmdCode.error →
      EditCommand env fci src =
        ({ fci with
            actionEmoji := fci.actionEmoji ++ [⟨fci.originalMsgID, xStr⟩] },
         [(if fci.actionChanMsg.text ≠ [] then
             Effect.sendMessage fci.actionChanMsg.messageID.channel (editErrChanNotice src)
           else Effect.sendMessage (env.getIM src.userID) (editErrIMNotice src)),
          Effect.reactMessage fci.originalMsgID xStr]) ∧
      hasDispatchEffect (EditCommand env fci src).2 = false) ∧
    (fci.commandResult.code = CmdCode.ok →
      EditCommand env fci src =
        ({ fci with
            actionEmoji := fci.actionEmoji ++ [⟨fci.originalMsgID, xStr⟩] },
         [Effect.sendMessage (env.getIM src.userID) (editForbiddenNotice src),
          Effect.reactMessage fci.originalMsgID xStr]) ∧
      hasDispatchEffect (EditCommand env fci src).2 = false) ∧
    ((fci.commandResult.code = CmdCode.failure ∨
      fci.commandResult.code = CmdCode.noSuchCommand ∨
      fci.commandResult.code = CmdCode.printUsage ∨
      fci.commandResult.code = CmdCode.printHelp) →
      hasDispatchEffect (EditCommand env fci src).2 = true) := by
  refine ⟨?_, ?_, ?_⟩
  · intro hc
    constructor
    · simp only [EditCommand, hdefault, hc]
      norm_num
    · simp only [EditCommand, hdefault, hc]
      norm_num
      by_cases ht : fci.actionChanMsg.text = []
      · simp [ht, hasDispatchEffect]
      · simp [ht, hasDispatchEffect]
  · intro hc
    constructor
    · simp only [EditCommand, hdefault, hc, editForbidden]
      norm_num
    · simp only [EditCommand, hdefault, hc, editForbidden]
      norm_num [hasDispatchEffect]
  · rintro (hc | hc | hc | hc) <;>
      simp [EditCommand, hdefault, hc, editRedispatch, hasDispatchEffect]

/-- Claim C2 amended witness: the amended theorem applied to concrete
default-flag entries — an error result with a posted channel reply
(channel notice, no dispatch), a success result (private refusal, no
dispatch), and a failure result (re-dispatched). -/
theorem c2_amended_edit_permission_policy_witness :
    (EditCommand envC
        { fciBaseC with
          commandResult := CommandResult.mk .error "Error".data (some "boom".data) 0 0 false argsC }
        srcC).2 =
      [Effect.sendMessage "C1".data (editErrChanNotice srcC),
       Effect.reactMessage fciBaseC.originalMsgID xStr] ∧
    hasDispatchEffect (EditCommand envC fciBaseC srcC).2 = false ∧
    hasDispatchEffect (EditCommand envC
        { fciBaseC with
          commandResult := CommandResult.mk .failure "no".data none 0 0 false argsC }
        srcC).2 = true := by
  refine ⟨?_, ?_, ?_⟩
  · have h := ((c2_amended_edit_permission_policy envC
      { fciBaseC with
        commandResult := CommandResult.mk .error "Error".data (some "boom".data) 0 0 false argsC }
      srcC rfl).1 rfl).1
    rw [h]
    rfl
  · exact ((c2_amended_edit_permission_policy envC fciBaseC srcC rfl).2.1 rfl).2
  · exact (c2_amended_edit_permission_policy envC
      { fciBaseC with
        commandResult := CommandResult.mk .failure "no".data none 0 0 false argsC }
      srcC rfl).2.2 (Or.inl rfl)

def dmQuoteTextC : Str := "say \"hello".data

/-- Claim C3 counterexample: for the direct message `say "hello` (an
unterminated double quote), parsing yields NO tokenization error —
`splitErr` is `none` and the quoted content is silently dropped, the
argument list being just `["say"]` — and initial processing therefore
dispatches normally (the result is the dispatch target's, not a
failure built from a tokenization error). -/
theorem c3_counterexample_unterminated_quote_no_error :
    ParseMessage "U1".data "D123".data dmQuoteTextC =
      some { wave := false, argSplit := ["say".data], splitErr := none,
             lenientNoSuchCommand := true } ∧
    (ProcessInitialCommandMessage envC
        { fciBaseC with
          parseResult := { wave := false, argSplit := ["say".data], splitErr := none,
                           lenientNoSuchCommand := true } }
        { msgID := ⟨"D123".data, "7.1".data⟩, userID := "U2".data,
          text := dmQuoteTextC }).1.commandResult.code = CmdCode.ok ∧
    hasDispatchEffect (ProcessInitialCommandMessage envC
        { fciBaseC with
          parseResult := { wave := false, argSplit := ["say".data], splitErr := none,
                           lenientNoSuchCommand := true } }
        { msgID := ⟨"D123".data, "7.1".data⟩, userID := "U2".data,
          text := dmQuoteTextC }).2 = true := by
  refine ⟨by decide, rfl, rfl⟩

theorem substLoop_no_refs (raw : Str) :
    ∀ (toks : List Str) (memo : Option (List Str)) (err : Option TokenizeError),
      (∀ tok ∈ toks, takeCodeBlockRef (trimSpace tok) = none) →
      substLoop raw toks memo err = some (toks.map trimSpace, err) := by
  intro toks
  induction toks with
  | nil => intro memo err _; rfl
  | cons v rest ih =>
    intro memo err h
    simp only [substLoop]
    rw [h v (List.mem_cons_self v rest)]
    dsimp only
    rw [ih memo err (fun tok htok => h tok (List.mem_cons_of_mem v htok))]
    rfl

/-- Claim C3 as amended: for a direct/private message (no explicit bot
mention) whose command line contains no code-block back-reference
token, initial parsing NEVER reports a tokenization error — unparseable
shell quoting included: the opened-quote content is silently dropped by
`shellSplit` and the surviving tokens are dispatched normally, rather
than producing a failure result. -/
theorem c3_amended_quoting_never_errors (bot ch text : Str) (r : ParseMessageReturn)
    (hch : ch.head? = some 'D')
    (hm : findMention2 bot text 0 true = none)
    (htok : ∀ tok ∈ shellSplit (trimLeftSp (lineFrom text 0)),
      takeCodeBlockRef (trimSpace tok) = none)
    (hp : ParseMessage bot ch text = some r) :
    r.splitErr = none ∧
    r.argSplit = (shellSplit (trimLeftSp (lineFrom text 0))).map trimSpace := by
  unfold ParseMessage at hp
  rw [hm] at hp
  rw [if_pos hch] at hp
  unfold ParseArgs at hp
  rw [substLoop_no_refs text _ none none htok] at hp
  dsimp only at hp
  injection hp with hp
  subst hp
  exact ⟨rfl, rfl⟩

/-- Claim C3 amended witness: the amended theorem applied to the
concrete unterminated-quote direct message `say "hello`, whose quoted
content is dropped without any error. -/
theorem c3_amended_quoting_never_errors_witness :
    ({ wave := false, argSplit := ["say".data], splitErr := none,
       lenientNoSuchCommand := true } : ParseMessageReturn).splitErr = none ∧
    ({ wave := false, argSplit := ["say".data], splitErr := none,
       lenientNoSuchCommand := true } : ParseMessageReturn).argSplit =
      (shellSplit (trimLeftSp (lineFrom dmQuoteTextC 0))).map trimSpace :=
  c3_amended_quoting_never_errors "U1".data "D123".data dmQuoteTextC _
    (by decide) (by decide) (by decide) (by decide)

/-! ## Lemmas for the sanitization claim -/

theorem occursIn_iff (needle : Str) :
    ∀ hay : Str, occursIn needle hay = true ↔ needle <:+: hay := by
  intro hay
  induction hay with
  | nil =>
    simp only [occursIn, List.isEmpty_iff, List.infix_nil]
  | cons c t ih =>
    simp only [occursIn, Bool.or_eq_true, List.isPrefixOf_iff_prefix, ih,
      List.infix_cons_iff]

theorem prefix_append_cases {u a b : Str} (h : u <+: a ++ b) : u <+: a ∨ a <+: u := by
  rcases h with ⟨r, hr⟩
  rcases List.append_eq_append_iff.mp hr with ⟨w, hw1, _⟩ | ⟨w, hw1, _⟩
  · exact Or.inl ⟨w, hw1.symm⟩
  · exact Or.inr ⟨w, hw1.symm⟩

theorem head_not_mem_infix {b t : Str} {c : Char} :
    ∀ {a : Str}, c ∉ a → (c :: t) <:+: a ++ b → (c :: t) <:+: b := by
  intro a
  induction a with
  | nil => intro _ h; simpa using h
  | cons x a2 ih =>
    intro hc h
    rcases List.infix_cons_iff.mp h with hpre | hinf
    · rcases List.cons_prefix_cons.mp hpre with ⟨hcx, _⟩
      exact absurd (hcx ▸ List.mem_cons_self x a2) hc
    · exact ih (fun hmem => hc (List.mem_cons_of_mem x hmem)) hinf

/-- No suffix of `u` is prefix-comparable with `rep`: the condition
under which a prefix of a `replaceAll` output cannot stick into an
inserted replacement. -/
def noSuffixClash (u rep : Str) : Prop :=
  ∀ k : Nat, u.drop k = [] ∨ (¬ rep <+: u.drop k ∧ ¬ u.drop k <+: rep)

theorem noSuffixClash_of_bounded (u rep : Str)
    (h : ∀ k ∈ List.range u.length,
      u.drop k = [] ∨ (¬ rep <+: u.drop k ∧ ¬ u.drop k <+: rep)) :
    noSuffixClash u rep := by
  intro k
  by_cases hk : k < u.length
  · exact h k (List.mem_range.mpr hk)
  · exact Or.inl (List.drop_eq_nil_of_le (by omega))

theorem noSuffixClash_tail {c : Char} {u rep : Str} (h : noSuffixClash (c :: u) rep) :
    noSuffixClash u rep := by
  intro k
  have := h (k + 1)
  simpa using this

theorem prefix_reflect (tok rep : Str) :
    ∀ (fuel : Nat) (s u : Str), noSuffixClash u rep →
      u <+: replaceAllF tok rep fuel s → u <+: s := by
  intro fuel
  induction fuel with
  | zero => intro s u _ h; exact h
  | succ fuel ih =>
    intro s u hclash hpre
    cases s with
    | nil => simpa [replaceAllF] using hpre
    | cons c s2 =>
      by_cases hm : tok ≠ [] ∧ tok.isPrefixOf (c :: s2)
      · simp only [replaceAllF, if_pos hm] at hpre
        rcases hclash 0 with h0 | ⟨hnr, hnu⟩
        · simp only [List.drop_zero] at h0
          subst h0
          exact List.nil_prefix
        · simp only [List.drop_zero] at hnr hnu
          rcases prefix_append_cases hpre with h1 | h1
          · exact absurd h1 hnu
          · exact absurd h1 hnr
      · simp only [replaceAllF, if_neg hm] at hpre
        cases u with
        | nil => exact List.nil_prefix
        | cons c2 u2 =>
          rcases List.cons_prefix_cons.mp hpre with ⟨hcc, hp2⟩
          subst hcc
          exact List.cons_prefix_cons.mpr
            ⟨rfl, ih s2 u2 (noSuffixClash_tail hclash) hp2⟩

theorem infix_preserved (tok rep : Str) (c1 : Char) (t2 : Str)
    (hc1 : c1 ∉ rep) (hclash : noSuffixClash t2 rep) :
    ∀ (fuel : Nat) (s : Str), ¬ (c1 :: t2) <:+: s →
      ¬ (c1 :: t2) <:+: replaceAllF tok rep fuel s := by
  intro fuel
  induction fuel with
  | zero => intro s h; exact h
  | succ fuel ih =>
    intro s hs hcontra
    cases s with
    | nil =>
      simp only [replaceAllF] at hcontra
      exact hs hcontra
    | cons c s2 =>
      by_cases hm : tok ≠ [] ∧ tok.isPrefixOf (c :: s2)
      · simp only [replaceAllF, if_pos hm] at hcontra
        have h2 := head_not_mem_infix hc1 hcontra
        have hdrop : ¬ (c1 :: t2) <:+: (c :: s2).drop tok.length := by
          intro hh
          exact hs (hh.trans (List.drop_suffix _ _).isInfix)
        exact ih _ hdrop h2
      · simp only [replaceAllF, if_neg hm] at hcontra
        rcases List.infix_cons_iff.mp hcontra with hpre | hinf
        · rcases List.cons_prefix_cons.mp hpre with ⟨hcc, hp2⟩
          have hps2 := prefix_reflect tok rep fuel s2 t2 hclash hp2
          subst hcc
          exact hs (List.cons_prefix_cons.mpr ⟨rfl, hps2⟩).isInfix
        · exact ih s2 (fun hh => hs (List.infix_cons hh)) hinf

theorem self_removed (rep : Str) (c1 : Char) (t2 : Str)
    (hc1 : c1 ∉ rep) (hclash : noSuffixClash t2 rep) :
    ∀ (fuel : Nat) (s : Str), s.length ≤ fuel →
      ¬ (c1 :: t2) <:+: replaceAllF (c1 :: t2) rep fuel s := by
  intro fuel
  induction fuel with
  | zero =>
    intro s hle hcontra
    have hs : s = [] := List.eq_nil_of_length_eq_zero (by omega)
    subst hs
    simp [replaceAllF] at hcontra
  | succ fuel ih =>
    intro s hle hcontra
    cases s with
    | nil => simp [replaceAllF] at hcontra
    | cons c s2 =>
      by_cases hm : (c1 :: t2) ≠ [] ∧ (c1 :: t2).isPrefixOf (c :: s2)
      · simp only [replaceAllF, if_pos hm] at hcontra
        have h2 := head_not_mem_infix hc1 hcontra
        refine ih _ ?_ h2
        simp only [List.length_drop, List.length_cons] at hle ⊢
        omega
      · simp only [replaceAllF, if_neg hm] at hcontra
        rcases List.infix_cons_iff.mp hcontra with hpre | hinf
        · rcases List.cons_prefix_cons.mp hpre with ⟨hcc, hp2⟩
          have hps2 := prefix_reflect (c1 :: t2) rep fuel s2 t2 hclash hp2
          apply hm
          refine ⟨by simp, ?_⟩
          subst hcc
          exact List.isPrefixOf_iff_prefix.mpr (List.cons_prefix_cons.mpr ⟨rfl, hps2⟩)
        · refine ih s2 ?_ hinf
          simp only [List.length_cons] at hle
          omega

theorem step_self (tok rep msg : Str) (c1 : Char) (t2 : Str)
    (htok : tok = c1 :: t2) (hc1 : c1 ∉ rep) (hclash : noSuffixClash t2 rep) :
    ¬ tok <:+: sanStep tok rep msg := by
  unfold sanStep
  by_cases ho : occursIn tok msg = true
  · rw [if_pos ho]
    subst htok
    exact self_removed rep c1 t2 hc1 hclash msg.length msg le_rfl
  · rw [if_neg ho]
    intro hcontra
    exact ho ((occursIn_iff _ _).mpr hcontra)

theorem step_pres (tok tok2 rep2 msg : Str) (c1 : Char) (t2 : Str)
    (htok : tok = c1 :: t2) (hc1 : c1 ∉ rep2) (hclash : noSuffixClash t2 rep2)
    (h : ¬ tok <:+: msg) :
    ¬ tok <:+: sanStep tok2 rep2 msg := by
  unfold sanStep
  by_cases ho : occursIn tok2 msg = true
  · rw [if_pos ho]
    subst htok
    exact infix_preserved tok2 rep2 c1 t2 hc1 hclash msg.length msg h
  · rw [if_neg ho]
    exact h

theorem loose_not_infix (tok msg : Str) (c1 : Char) (t2 : Str)
    (htok : tok = c1 :: t2) (hne : c1 ≠ '.') (h : ¬ tok <:+: msg) :
    ¬ tok <:+: SanitizeLoose msg := by
  subst htok
  unfold SanitizeLoose
  split
  · intro hcontra
    rcases List.infix_cons_iff.mp hcontra with hpre | hinf
    · exact hne (List.cons_prefix_cons.mp hpre).1
    · exact h hinf
  · exact h

theorem loose_infix_iff (tok msg : Str) (c1 : Char) (t2 : Str)
    (htok : tok = c1 :: t2) (hne : c1 ≠ '.') :
    (tok <:+: SanitizeLoose msg ↔ tok <:+: msg) := by
  subst htok
  unfold SanitizeLoose
  split
  · constructor
    · intro hcontra
      rcases List.infix_cons_iff.mp hcontra with hpre | hinf
      · exact absurd (List.cons_prefix_cons.mp hpre).1 hne
      · exact hinf
    · exact fun hh => List.infix_cons hh
  · exact Iff.rfl

theorem replaceAll_head_of_ne (tok rep msg : Str) (c : Char)
    (hh : msg.head? = some c) (hne : tok.head? ≠ some c) :
    (replaceAll tok rep msg).head? = some c := by
  cases msg with
  | nil => simp at hh
  | cons m msg2 =>
    have hmc : m = c := by simpa using hh
    unfold replaceAll
    simp only [List.length_cons, replaceAllF]
    by_cases hm : tok ≠ [] ∧ tok.isPrefixOf (m :: msg2)
    · exfalso
      cases tok with
      | nil => exact hm.1 rfl
      | cons t0 ts =>
        have h0 := (List.cons_prefix_cons.mp (List.isPrefixOf_iff_prefix.mp hm.2)).1
        apply hne
        rw [List.head?_cons, h0, hmc]
    · rw [if_neg hm]
      rw [List.head?_cons, hmc]

theorem sanStep_head_of_ne (tok rep msg : Str) (c : Char)
    (hh : msg.head? = some c) (hne : tok.head? ≠ some c) :
    (sanStep tok rep msg).head? = some c := by
  unfold sanStep
  split
  · exact replaceAll_head_of_ne tok rep msg c hh hne
  · exact hh

/-- Claim C8: a public-channel destination of the initial-processing
reply closures receives its text through `SanitizeForChannel` and a
private (IM) destination through `SanitizeLoose`; `SanitizeForChannel`
leaves no occurrence of any of the three platform-wide broadcast
mention tokens and escapes a leading slash, while `SanitizeLoose` only
prepends a dot to a leading slash — in particular it leaves broadcast
mention tokens exactly as they were. -/
theorem c8_sanitization_policy (env : Env) (chanID imID logID : Str)
    (fci : FinishedCommandInfo) (msg : Str) :
    (applyInitialSend env chanID imID logID fci (SendDest.chan, msg)).2 =
      Effect.sendMessage chanID (SanitizeForChannel msg) ∧
    (applyInitialSend env chanID imID logID fci (SendDest.im, msg)).2 =
      Effect.sendMessage imID (SanitizeLoose msg) ∧
    (¬ tokChannelStr <:+: SanitizeForChannel msg ∧
     ¬ tokEveryoneStr <:+: SanitizeForChannel msg ∧
     ¬ tokHereStr <:+: SanitizeForChannel msg) ∧
    (SanitizeLoose msg = msg ∨ SanitizeLoose msg = '.' :: msg) ∧
    ((tokChannelStr <:+: SanitizeLoose msg ↔ tokChannelStr <:+: msg) ∧
     (tokEveryoneStr <:+: SanitizeLoose msg ↔ tokEveryoneStr <:+: msg) ∧
     (tokHereStr <:+: SanitizeLoose msg ↔ tokHereStr <:+: msg)) ∧
    (msg.head? = some '/' →
      SanitizeLoose msg = '.' :: msg ∧
      (SanitizeForChannel msg).head? = some '.') := by
  refine ⟨rfl, rfl, ⟨?_, ?_, ?_⟩, ?_, ⟨?_, ?_, ?_⟩, ?_⟩
  · have h1 := step_self tokChannelStr repChannelStr msg '<' ("!channel>".data) rfl
      (by decide) (noSuffixClash_of_bounded _ _ (by decide))
    have h2 := step_pres tokChannelStr tokEveryoneStr repEveryoneStr _ '<'
      ("!channel>".data) rfl (by decide) (noSuffixClash_of_bounded _ _ (by decide)) h1
    have h3 := step_pres tokChannelStr tokHereStr repHereStr _ '<'
      ("!channel>".data) rfl (by decide) (noSuffixClash_of_bounded _ _ (by decide)) h2
    exact loose_not_infix tokChannelStr _ '<' ("!channel>".data) rfl (by decide) h3
  · have h2 := step_self tokEveryoneStr repEveryoneStr
      (sanStep tokChannelStr repChannelStr msg) '<' ("!everyone>".data) rfl
      (by decide) (noSuffixClash_of_bounded _ _ (by decide))
    have h3 := step_pres tokEveryoneStr tokHereStr repHereStr _ '<'
      ("!everyone>".data) rfl (by decide) (noSuffixClash_of_bounded _ _ (by decide)) h2
    exact loose_not_infix tokEveryoneStr _ '<' ("!everyone>".data) rfl (by decide) h3
  · have h3 := step_self tokHereStr repHereStr
      (sanStep tokEveryoneStr repEveryoneStr (sanStep tokChannelStr repChannelStr msg))
      '<' ("!here|@here>".data) rfl (by decide)
      (noSuffixClash_of_bounded _ _ (by decide))
    exact loose_not_infix tokHereStr _ '<' ("!here|@here>".data) rfl (by decide) h3
  · unfold SanitizeLoose
    split
    · exact Or.inr rfl
    · exact Or.inl rfl
  · exact loose_infix_iff tokChannelStr _ '<' ("!channel>".data) rfl (by decide)
  · exact loose_infix_iff tokEveryoneStr _ '<' ("!everyone>".data) rfl (by decide)
  · exact loose_infix_iff tokHereStr _ '<' ("!here|@here>".data) rfl (by decide)
  · intro hh
    constructor
    · unfold SanitizeLoose
      rw [if_pos hh]
    · have h1 : (sanStep tokChannelStr repChannelStr msg).head? = some '/' :=
        sanStep_head_of_ne _ _ _ _ hh (by decide)
      have h2 : (sanStep tokEveryoneStr repEveryoneStr
          (sanStep tokChannelStr repChannelStr msg)).head? = some '/' :=
        sanStep_head_of_ne _ _ _ _ h1 (by decide)
      have h3 : (sanStep tokHereStr repHereStr (sanStep tokEveryoneStr repEveryoneStr
          (sanStep tokChannelStr repChannelStr msg))).head? = some '/' :=
        sanStep_head_of_ne _ _ _ _ h2 (by decide)
      unfold SanitizeForChannel SanitizeLoose
      rw [if_pos h3]
      rfl

/-- Claim C8 witness: the theorem applied at a concrete message that
contains a broadcast token and starts with a slash. -/
theorem c8_sanitization_policy_witness :
    (applyInitialSend envC ("C1".data) ("D1".data) ("CLOG".data) fciBaseC
        (SendDest.chan, "/cmd <!channel> hi".data)).2 =
      Effect.sendMessage ("C1".data) (SanitizeForChannel "/cmd <!channel> hi".data) ∧
    ¬ tokChannelStr <:+: SanitizeForChannel "/cmd <!channel> hi".data ∧
    (tokChannelStr <:+: SanitizeLoose "/cmd <!channel> hi".data ↔
      tokChannelStr <:+: "/cmd <!channel> hi".data) := by
  have h := c8_sanitization_policy envC ("C1".data) ("D1".data) ("CLOG".data)
    fciBaseC ("/cmd <!channel> hi".data)
  exact ⟨h.1, h.2.2.1.1, h.2.2.2.2.1.1⟩

end Marvin
